import Mathlib

/-!
Verification of the port-scanner core, `src/app.py`.

Shallow embedding of the scan pipeline of `app.py`:

* `load_config` (lines 21–41): hostname resolution and target expansion.
  DNS (`socket.gethostbyname_ex`) is an oracle `dns : String → Option (List String)`;
  `none` models a raised `socket.gaierror`.
* `port_scan` (lines 44–57): one TCP probe. The socket connect
  (`sock.connect_ex` with `sock.settimeout(timeout)`) is an oracle
  `connect : Val → Val → Nat → Nat` mapping (ip, port, timeout) to the
  `connect_ex` return code; `0` means the connect succeeded within the timeout.
  Python lists such as `host_port` are `List Val`; the in-place
  `host_port.append(status)` becomes returning the extended list, and the
  shared `result` list is threaded explicitly.
* `parallel_scan` (lines 60–70): the fan-out; modelled as the sequential
  interleaving in which threads complete in start order. A thread whose body
  raises dies silently (its exception is not propagated to the joiner), which
  `run_thread` models by leaving `result` unchanged.
* `save_scan_result` (lines 73–102): aggregation of the flat result list into
  the nested snapshot dictionary, persistence, and metric publication.
  Python dicts are insertion-ordered association lists (`Dict`).
* `update_prometheus_metrics` (lines 105–117): the gauge registry
  (`port_scan_status._metrics`) is a `Dict` from label triples to values;
  `.clear()` empties it and `.labels(...).set(v)` is `dictSet`.
* The byte-level behaviour of `open(RESULT_PATH, "w")` followed by
  `file.write(doc)` (lines 100–101) is modelled separately by
  `observable_contents`: `open(_, "w")` truncates the file at once, and the
  write then extends it prefix by prefix.
-/

namespace PortScanner

/-- A Python scalar value as it occurs in the scanner's lists and dicts:
hostnames, IPs and ports are strings (or ints, for ports taken verbatim from
the YAML config), statuses are the ints `0`/`1`. -/
inductive Val where
  | s : String → Val
  | n : Nat → Val
deriving DecidableEq, Repr

/-- A Python `dict` as an insertion-ordered association list with unique keys
maintained by `dictSet`. -/
abbrev Dict (α β : Type) := List (α × β)

/-- Lookup `d[k]`: first (and, for `dictSet`-built dicts, only) binding of `k`. -/
def dictGet {α β : Type} [DecidableEq α] (k : α) : Dict α β → Option β
  | [] => none
  | (k', v) :: rest => if k' = k then some v else dictGet k rest

/-- Assignment `d[k] = v`: overwrite in place, keeping the key's position;
a new key is appended at the end (Python 3.7+ dict semantics). -/
def dictSet {α β : Type} [DecidableEq α] (k : α) (v : β) : Dict α β → Dict α β
  | [] => [(k, v)]
  | (k', v') :: rest => if k' = k then (k, v) :: rest else (k', v') :: dictSet k v rest

/-- Keys of the dict, `d.keys()`. -/
def dictKeys {α β : Type} (d : Dict α β) : List α := d.map Prod.fst

/-- Line 14, `TIMEOUT = 2`. -/
def TIMEOUT : Nat := 2

/-- Loop body of `load_config` (lines 36–40): the inner
`for ip in ips: for port in ports: result.append([hostname, ip, port])`,
as the block of rows appended for one configured hostname. -/
def host_targets (hostname : String) (ips : List String) (ports : List Val) :
    List (List Val) :=
  ips.flatMap (fun ip => ports.map (fun port => [Val.s hostname, Val.s ip, port]))

/-- The `for hostname, ports in spec.items()` loop of `load_config`
(lines 36–41), with the accumulated `result` list explicit. A failed
`socket.gethostbyname_ex` raises, discarding the partial `result`. -/
def load_config_go (dns : String → Option (List String)) :
    List (String × List Val) → List (List Val) → Option (List (List Val))
  | [], acc => some acc
  | (hostname, ports) :: rest, acc =>
    match dns hostname with
    | none => none
    | some ips => load_config_go dns rest (acc ++ host_targets hostname ips ports)

/-- Lines 21 to 41, `load_config`: expand the parsed config mapping into the flat
list of `[hostname, ip, port]` targets, or fail if any hostname is
unresolvable. -/
def load_config (dns : String → Option (List String))
    (spec : List (String × List Val)) : Option (List (List Val)) :=
  load_config_go dns spec []

/-- Lines 44 to 57, `port_scan`. Returns the pair (mutated `host_port`,
mutated `result`): the status is appended to the target list itself, and that
same extended list is appended to `result`. `none` models the `IndexError`
raised by `host_port[1]`/`host_port[2]` on a too-short list. -/
def port_scan (connect : Val → Val → Nat → Nat) (host_port : List Val)
    (timeout : Nat) (result : List (List Val)) :
    Option (List Val × List (List Val)) :=
  match host_port with
  | hostname :: ip :: port :: rest =>
    if connect ip port timeout = 0 then
      some (hostname :: ip :: port :: rest ++ [Val.n 1],
            result ++ [hostname :: ip :: port :: rest ++ [Val.n 1]])
    else
      some (hostname :: ip :: port :: rest ++ [Val.n 0],
            result ++ [hostname :: ip :: port :: rest ++ [Val.n 0]])
  | _ => none

/-- One worker thread of `parallel_scan` (lines 66–67): runs
`port_scan(host_port=i, result=result)` with the default `timeout`; an
exception inside the thread kills only that thread, leaving `result` as is. -/
def run_thread (connect : Val → Val → Nat → Nat) (result : List (List Val))
    (host_port : List Val) : List (List Val) :=
  match port_scan connect host_port TIMEOUT result with
  | some r => r.2
  | none => result

/-- Lines 60 to 70, `parallel_scan`, in the interleaving where threads complete
in start order: load the config, then fold every target's `port_scan` over the
shared `result` list, joining all threads before returning. -/
def parallel_scan (dns : String → Option (List String))
    (connect : Val → Val → Nat → Nat) (config : List (String × List Val)) :
    Option (List (List Val)) :=
  (load_config dns config).map (fun spec => spec.foldl (run_thread connect) [])

/-- The nested result dictionary built by `save_scan_result`:
hostname → ip → port → "open" | "closed". -/
abbrev Snapshot := Dict Val (Dict Val (Dict Val String))

/-- One iteration of the `for x in scan_result` loop of `save_scan_result`
(lines 90–99): unpack `hostname, ip, port, status = x` (a `ValueError` on a
list that is not exactly four long is `none`), ensure the nested dicts exist,
then assign `pretty_json[hostname][ip][port]`. In-place mutation of the inner
dicts is rendered by writing the updated inner dicts back. -/
def aggregate_step (pretty_json : Snapshot) (x : List Val) : Option Snapshot :=
  match x with
  | [hostname, ip, port, status] =>
    let pj := if (dictGet hostname pretty_json).isNone
              then dictSet hostname [] pretty_json else pretty_json
    let hmap := (dictGet hostname pj).getD []
    let hmap := if (dictGet ip hmap).isNone then dictSet ip [] hmap else hmap
    let imap := (dictGet ip hmap).getD []
    let imap := dictSet port (if status = Val.n 1 then "open" else "closed") imap
    some (dictSet hostname (dictSet ip imap hmap) pj)
  | _ => none

/-- The aggregation loop of `save_scan_result` (lines 88–99): fold the flat
scan result list into the nested snapshot, starting from the fresh
`pretty_json = {}`. -/
def aggregate (scan_result : List (List Val)) : Option Snapshot :=
  scan_result.foldlM aggregate_step []

/-- The gauge value written by `update_prometheus_metrics` (lines 114–117):
`1` if the stored status string is `"open"`, else `0`. -/
def gaugeVal (status : String) : Nat := if status = "open" then 1 else 0

/-- The Prometheus registry for `port_scan_status`: one numeric series per
(hostname, ip, port) label triple. -/
abbrev GaugeSet := Dict (Val × Val × Val) Nat

/-- Innermost loop of `update_prometheus_metrics` (lines 113–117):
`for port, status in ports.items()`, setting one labelled series each. -/
def set_ports (hostname ip : Val) (ports : Dict Val String) (g : GaugeSet) :
    GaugeSet :=
  ports.foldl (fun g p => dictSet (hostname, ip, p.1) (gaugeVal p.2) g) g

/-- Middle loop of `update_prometheus_metrics` (line 112):
`for ip, ports in ips.items()`. -/
def set_ips (hostname : Val) (ips : Dict Val (Dict Val String)) (g : GaugeSet) :
    GaugeSet :=
  ips.foldl (fun g i => set_ports hostname i.1 i.2 g) g

/-- Lines 105 to 117, `update_prometheus_metrics`, as a function of the parsed
document at `RESULT_PATH` (the JSON round-trip is the identity on the
snapshot): `port_scan_status._metrics.clear()` empties the registry, then the
triple loop repopulates it. The previous registry contents are discarded
entirely, so the function ignores them. -/
def update_prometheus_metrics (result : Snapshot) : GaugeSet :=
  result.foldl (fun g h => set_ips h.1 h.2 g) []

/-- The pipeline state a scan cycle can touch: the persisted document at
`RESULT_PATH` (`none` before the first successful cycle) and the gauge
registry. -/
structure AppState where
  file : Option Snapshot
  gauges : GaugeSet
deriving Repr

/-- Lines 73 to 102, `save_scan_result`, as a state transformer for one cycle:
`parallel_scan` (which itself calls `load_config`), then the aggregation fold,
then the file write and `update_prometheus_metrics`. An exception anywhere
before the `open(RESULT_PATH, "w")` on line 100 propagates out of the
scheduler job, leaving both the persisted file and the gauges untouched. -/
def save_scan_result (dns : String → Option (List String))
    (connect : Val → Val → Nat → Nat) (config : List (String × List Val))
    (st : AppState) : AppState :=
  match parallel_scan dns connect config with
  | none => st
  | some scan_result =>
    match aggregate scan_result with
    | none => st
    | some pretty_json =>
      { file := some pretty_json,
        gauges := update_prometheus_metrics pretty_json }

/-- Byte-level model of lines 100–101,
`with open(RESULT_PATH, "w") as file: file.write(json.dumps(...))`:
the sequence of contents of `RESULT_PATH` a concurrent reader can observe.
`open(_, "w")` truncates the file to `""` at once; the write then extends it
one prefix of `doc` at a time (a failure partway through leaves some proper
prefix on disk). The initial element is the prior content `old`. -/
def observable_contents (old doc : List Char) : List (List Char) :=
  old :: (List.range (doc.length + 1)).map (fun k => doc.take k)

/-- The single list object created once for the default value of the `result`
parameter of `port_scan` (line 44, `result=[]`): module-level mutable state
shared by every call that omits `result`. -/
structure PortScanDefaults where
  result : List (List Val)
deriving DecidableEq, Repr

/-- A call `port_scan(host_port, timeout)` that omits `result`: it reads and
mutates the shared definition-time default list. -/
def port_scan_default (connect : Val → Val → Nat → Nat) (host_port : List Val)
    (timeout : Nat) (d : PortScanDefaults) :
    Option (List Val × PortScanDefaults) :=
  (port_scan connect host_port timeout d.result).map (fun r => (r.1, ⟨r.2⟩))

/-- The status appended by `port_scan` to a well-formed target under the given
connect oracle and the default timeout (lines 51–56). -/
def scan_status (connect : Val → Val → Nat → Nat) (t : List Val) : Nat :=
  match t with
  | _ :: ip :: port :: _ => if connect ip port TIMEOUT = 0 then 1 else 0
  | _ => 0

/-- The four-element row `[hostname, ip, port, status]` that `port_scan`
produces from a target under the default timeout. -/
def probe_row (connect : Val → Val → Nat → Nat) (t : List Val) : List Val :=
  t ++ [Val.n (scan_status connect t)]

/-- The target list `load_config` returns when every hostname resolves: the
ordered product (hostname in config order) × (ip in resolution order) ×
(port in config order). -/
def resolved_targets (dns : String → Option (List String))
    (spec : List (String × List Val)) : List (List Val) :=
  spec.flatMap (fun hp => host_targets hp.1 ((dns hp.1).getD []) hp.2)

/-- The lookup `snapshot[hostname][ip][port]`, `none` when any level lacks the
key. -/
def lookup3 (s : Snapshot) (hostname ip port : Val) : Option String :=
  (dictGet hostname s).bind (fun hm => (dictGet ip hm).bind (fun im => dictGet port im))

/-- Insertion of one probe row into the nested snapshot as the spec describes
the aggregation fold: write the status at `[hostname][ip][port]`, creating the
intermediate levels as needed, overwriting any earlier binding of the same
triple. Stated from the spec's words, to be compared with `aggregate_step`. -/
def spec_insert (hostname ip port : Val) (status : String) (s : Snapshot) :
    Snapshot :=
  let hmap := (dictGet hostname s).getD []
  let imap := (dictGet ip hmap).getD []
  dictSet hostname (dictSet ip (dictSet port status imap) hmap) s

/-- The status string stored for a probe status value (`'open'` iff the status
equals the int `1`, lines 96–99). -/
def statusStr (status : Val) : String :=
  if status = Val.n 1 then "open" else "closed"

/-- The spec's description of `aggregate`: the left-to-right fold of
`spec_insert` over the probe rows, starting from a fresh empty mapping. -/
def aggregateSpec (rows : List (Val × Val × Val × Val)) : Snapshot :=
  rows.foldl (fun s r => spec_insert r.1 r.2.1 r.2.2.1 (statusStr r.2.2.2) s) []

/-- The gauge entries contributed by one `ports` dictionary of a snapshot:
one `((hostname, ip, port), value)` pair per port. -/
def port_block (hostname ip : Val) (ports : Dict Val String) :
    List ((Val × Val × Val) × Nat) :=
  ports.map (fun p => ((hostname, ip, p.1), gaugeVal p.2))

/-- The gauge entries contributed by one hostname's `ips` dictionary. -/
def ip_block (hostname : Val) (ips : Dict Val (Dict Val String)) :
    List ((Val × Val × Val) × Nat) :=
  ips.flatMap (fun i => port_block hostname i.1 i.2)

/-- The label/value pairs a snapshot describes, flattened in iteration order:
one `((hostname, ip, port), value)` pair per snapshot entry. -/
def snapshot_entries (s : Snapshot) : List ((Val × Val × Val) × Nat) :=
  s.flatMap (fun h => ip_block h.1 h.2)

/-- Well-formedness of a parsed snapshot: at every level the dictionary's keys
are distinct, as is automatic for dictionaries produced by `json.load` or by
the aggregation fold. -/
def SnapshotWF (s : Snapshot) : Prop :=
  (dictKeys s).Nodup ∧
    ∀ h ∈ s, (dictKeys h.2).Nodup ∧ ∀ i ∈ h.2, (dictKeys i.2).Nodup

instance : DecidablePred SnapshotWF := fun s => by
  unfold SnapshotWF; infer_instance

/-- A concrete snapshot, the spec's worked example: host `example.com` at
`93.184.216.34` with port 80 open and port 443 closed. -/
def demoSnapshot : Snapshot :=
  [(Val.s "example.com",
    [(Val.s "93.184.216.34",
      [(Val.s "80", "open"), (Val.s "443", "closed")])])]

/-- A DNS oracle for concrete cycles: `example.com` resolves to one address,
everything else fails to resolve. -/
def demoDns : String → Option (List String) :=
  fun h => if h = "example.com" then some ["93.184.216.34"] else none

/-- A connect oracle for concrete cycles: connecting to port `"80"` succeeds
(code 0), any other port fails with `ECONNREFUSED` (code 111). -/
def demoConnect : Val → Val → Nat → Nat :=
  fun _ port _ => if port = Val.s "80" then 0 else 111

/-! Dictionary lemmas -/

section DictLemmas

variable {α β : Type} [DecidableEq α]

theorem dictGet_dictSet_self (k : α) (v : β) (d : Dict α β) :
    dictGet k (dictSet k v d) = some v := by
  induction d with
  | nil => simp [dictGet, dictSet]
  | cons kv rest ih =>
    obtain ⟨k', v'⟩ := kv
    by_cases h : k' = k <;> simp [dictGet, dictSet, h, ih]

theorem dictGet_dictSet_ne (k k' : α) (v : β) (d : Dict α β) (h : k' ≠ k) :
    dictGet k (dictSet k' v d) = dictGet k d := by
  induction d with
  | nil => simp [dictGet, dictSet, h]
  | cons kv rest ih =>
    obtain ⟨k₀, v₀⟩ := kv
    by_cases h0 : k₀ = k'
    · subst h0; simp [dictGet, dictSet, h]
    · by_cases h1 : k₀ = k
      · subst h1; simp [dictGet, dictSet, h0]
      · simp [dictGet, dictSet, h0, h1, ih]

theorem dictSet_dictSet (k : α) (v₁ v₂ : β) (d : Dict α β) :
    dictSet k v₂ (dictSet k v₁ d) = dictSet k v₂ d := by
  induction d with
  | nil => simp [dictSet]
  | cons kv rest ih =>
    obtain ⟨k₀, v₀⟩ := kv
    by_cases h : k₀ = k <;> simp [dictSet, h, ih]

theorem dictGet_eq_none_of_not_mem (k : α) (d : Dict α β)
    (h : k ∉ dictKeys d) : dictGet k d = none := by
  induction d with
  | nil => simp [dictGet]
  | cons kv rest ih =>
    obtain ⟨k₀, v₀⟩ := kv
    simp only [dictKeys, List.map_cons, List.mem_cons] at h
    push_neg at h
    simpa [dictGet, Ne.symm h.1] using ih (by simpa [dictKeys] using h.2)

theorem dictSet_of_not_mem (k : α) (v : β) (d : Dict α β)
    (h : k ∉ dictKeys d) : dictSet k v d = d ++ [(k, v)] := by
  induction d with
  | nil => simp [dictSet]
  | cons kv rest ih =>
    obtain ⟨k₀, v₀⟩ := kv
    simp only [dictKeys, List.map_cons, List.mem_cons] at h
    push_neg at h
    simp [dictSet, Ne.symm h.1, ih (by simpa [dictKeys] using h.2)]

theorem dictGet_append (k : α) (d₁ d₂ : Dict α β) :
    dictGet k (d₁ ++ d₂) =
      match dictGet k d₁ with
      | some v => some v
      | none => dictGet k d₂ := by
  induction d₁ with
  | nil => simp [dictGet]
  | cons kv rest ih =>
    obtain ⟨k₀, v₀⟩ := kv
    by_cases h : k₀ = k <;> simp [dictGet, h, ih]

end DictLemmas

/-! Behaviour of the probe, lines 44 to 57 -/

theorem port_scan_eq (connect : Val → Val → Nat → Nat) (hostname ip port : Val)
    (timeout : Nat) (result : List (List Val)) :
    port_scan connect [hostname, ip, port] timeout result
      = some ([hostname, ip, port,
               Val.n (if connect ip port timeout = 0 then 1 else 0)],
              result ++ [[hostname, ip, port,
               Val.n (if connect ip port timeout = 0 then 1 else 0)]]) := by
  by_cases h : connect ip port timeout = 0 <;> simp [port_scan, h]

/-- C6: for every probed target the status is open (1) exactly when the TCP
connect to (ip, port) succeeds within the timeout — `connect_ex` returns 0 —
and closed (0) in every other case (any nonzero `connect_ex` code: timeout
expiry, refusal, unreachability), with no per-target error: the call always
returns (`some`) and appends exactly one classified row. -/
theorem C6_port_scan_classification (connect : Val → Val → Nat → Nat)
    (hostname ip port : Val) (timeout : Nat) (result : List (List Val)) :
    ∃ st : Nat,
      port_scan connect [hostname, ip, port] timeout result
        = some ([hostname, ip, port, Val.n st],
                result ++ [[hostname, ip, port, Val.n st]]) ∧
      (st = 1 ↔ connect ip port timeout = 0) ∧
      (st = 0 ↔ connect ip port timeout ≠ 0) := by
  refine ⟨if connect ip port timeout = 0 then 1 else 0, port_scan_eq .., ?_, ?_⟩ <;>
    by_cases h : connect ip port timeout = 0 <;> simp [h]

/-- C8 as stated is false: `port_scan` does not leave the target value it was
given unchanged. At a concrete target whose connect succeeds, the target
handed back is the input with the status appended, not the input itself. -/
theorem C8_counterexample :
    ¬ ((port_scan (fun _ _ _ => 0)
          [Val.s "example.com", Val.s "93.184.216.34", Val.s "80"] 2 []).map
        Prod.fst
        = some [Val.s "example.com", Val.s "93.184.216.34", Val.s "80"]) := by
  decide

/-- C8 amended: `port_scan` mutates the target it was given in place,
appending the status so that the target becomes the four-element row
`[hostname, ip, port, status]`; that same mutated list — not a separate
copy — is what is appended to the result collection as the ProbeResult, and
the (hostname, ip, port) prefix of the target is left unchanged. -/
theorem C8_port_scan_mutates_target (connect : Val → Val → Nat → Nat)
    (hostname ip port : Val) (timeout : Nat) (result : List (List Val)) :
    ∃ st : Nat,
      port_scan connect [hostname, ip, port] timeout result
        = some ([hostname, ip, port] ++ [Val.n st],
                result ++ [[hostname, ip, port] ++ [Val.n st]]) ∧
      ([hostname, ip, port] ++ [Val.n st]).take 3 = [hostname, ip, port] := by
  exact ⟨if connect ip port timeout = 0 then 1 else 0, port_scan_eq .., by simp⟩

/-- C10: a `port_scan` call appends exactly one entry to the result list it
operates on; two calls that both omit `result` share the single list created
once for the parameter default, so their entries accumulate in that one list;
a caller passing an explicit list (as `parallel_scan` does with its fresh
`result = []`) extends that list instead, independently of the default. -/
theorem C10_default_result_accumulates (connect : Val → Val → Nat → Nat)
    (h₁ i₁ p₁ h₂ i₂ p₂ : Val) (timeout : Nat) (d : PortScanDefaults)
    (r : List (List Val)) :
    ∃ row₁ row₂ row₃,
      port_scan_default connect [h₁, i₁, p₁] timeout d
        = some (row₁, ⟨d.result ++ [row₁]⟩) ∧
      port_scan_default connect [h₂, i₂, p₂] timeout ⟨d.result ++ [row₁]⟩
        = some (row₂, ⟨d.result ++ [row₁] ++ [row₂]⟩) ∧
      (port_scan connect [h₁, i₁, p₁] timeout r).map Prod.snd
        = some (r ++ [row₃]) := by
  refine ⟨[h₁, i₁, p₁, Val.n (if connect i₁ p₁ timeout = 0 then 1 else 0)],
          [h₂, i₂, p₂, Val.n (if connect i₂ p₂ timeout = 0 then 1 else 0)],
          [h₁, i₁, p₁, Val.n (if connect i₁ p₁ timeout = 0 then 1 else 0)],
          ?_, ?_, ?_⟩ <;>
    simp [port_scan_default, port_scan_eq]

/-! The persistence write, lines 100 and 101 -/

/-- C2 as stated is false: the replacement of `RESULT_PATH` is not atomic
from a reader's perspective. With prior content `"a"` and new document
`"xy"`, a reader during the write can observe the truncated file `""` and the
half-written `"x"`, neither the old nor the new document — so a write failing
partway through has already destroyed the previous snapshot. -/
theorem C2_counterexample :
    ¬ (∀ c ∈ observable_contents ['a'] ['x', 'y'],
        c = ['a'] ∨ c = ['x', 'y']) := by
  decide

/-- C2 amended: the call `open(RESULT_PATH, "w")` truncates the file
immediately, so if the write fails partway through, the previously persisted
snapshot is destroyed rather than untouched: the file then holds some initial
segment `doc.take k` of the new document (the empty file is observable right
after the truncation), and a reader can observe any such partially written
state; the scoped `with` write does leave the complete document as the final
state on success. -/
theorem C2_truncating_write (old doc : List Char) :
    ([] : List Char) ∈ observable_contents old doc ∧
    doc ∈ observable_contents old doc ∧
    ∀ c ∈ observable_contents old doc,
      c = old ∨ ∃ k ≤ doc.length, c = doc.take k := by
  refine ⟨?_, ?_, ?_⟩
  · exact List.mem_cons_of_mem _ (List.mem_map.mpr
      ⟨0, by simp [List.mem_range], by simp⟩)
  · exact List.mem_cons_of_mem _ (List.mem_map.mpr
      ⟨doc.length, by simp [List.mem_range], by simp⟩)
  · intro c hc
    rcases List.mem_cons.mp hc with rfl | hc
    · exact Or.inl rfl
    · rcases List.mem_map.mp hc with ⟨k, hk, rfl⟩
      exact Or.inr ⟨k, by simpa [Nat.lt_succ_iff] using List.mem_range.mp hk, rfl⟩

/-- Concrete instance of the amended C2 statement: with prior content `"a"`
and document `"x"`, the truncated empty file is observable and is an initial
segment of the new document. -/
theorem C2_truncating_write_witness :
    ([] : List Char) ∈ observable_contents ['a'] ['x'] ∧
    (([] : List Char) = ['a'] ∨
      ∃ k ≤ (['x'] : List Char).length, ([] : List Char) = (['x'] : List Char).take k) :=
  ⟨(C2_truncating_write ['a'] ['x']).1,
   (C2_truncating_write ['a'] ['x']).2.2 [] (C2_truncating_write ['a'] ['x']).1⟩

/-! Resolution, lines 21 to 41 -/

theorem load_config_go_eq_of_resolvable (dns : String → Option (List String))
    (spec : List (String × List Val)) (acc : List (List Val))
    (h : ∀ hp ∈ spec, (dns hp.1).isSome) :
    load_config_go dns spec acc = some (acc ++ resolved_targets dns spec) := by
  induction spec generalizing acc with
  | nil => simp [load_config_go, resolved_targets]
  | cons hp rest ih =>
    obtain ⟨hostname, ports⟩ := hp
    obtain ⟨ips, hips⟩ := Option.isSome_iff_exists.mp (h _ (List.mem_cons_self _ _))
    rw [load_config_go, hips]
    show load_config_go dns rest (acc ++ host_targets hostname ips ports)
        = some (acc ++ resolved_targets dns ((hostname, ports) :: rest))
    rw [ih _ (fun x hx => h x (List.mem_cons_of_mem _ hx))]
    simp [resolved_targets, hips, List.append_assoc]

theorem load_config_go_eq_none (dns : String → Option (List String))
    (spec : List (String × List Val)) (acc : List (List Val))
    (h : ∃ hp ∈ spec, dns hp.1 = none) :
    load_config_go dns spec acc = none := by
  induction spec generalizing acc with
  | nil => simp at h
  | cons hp rest ih =>
    obtain ⟨hostname, ports⟩ := hp
    obtain ⟨x, hx, hnone⟩ := h
    rcases List.mem_cons.mp hx with rfl | hmem
    · rw [load_config_go, hnone]
    · cases hdns : dns hostname with
      | none => rw [load_config_go, hdns]
      | some ips => rw [load_config_go, hdns]; exact ih _ ⟨x, hmem, hnone⟩

theorem load_config_some_inv (dns : String → Option (List String))
    (spec : List (String × List Val)) (out : List (List Val))
    (h : load_config dns spec = some out) :
    (∀ hp ∈ spec, (dns hp.1).isSome) ∧ out = resolved_targets dns spec := by
  by_cases hall : ∀ hp ∈ spec, (dns hp.1).isSome
  · have := load_config_go_eq_of_resolvable dns spec [] hall
    rw [load_config, this] at h
    exact ⟨hall, by simpa using h.symm⟩
  · push_neg at hall
    obtain ⟨x, hx, hns⟩ := hall
    have : load_config dns spec = none :=
      load_config_go_eq_none dns spec []
        ⟨x, hx, Option.not_isSome_iff_eq_none.mp hns⟩
    rw [this] at h
    exact absurd h (by simp)

theorem host_targets_length (hostname : String) (ips : List String)
    (ports : List Val) :
    (host_targets hostname ips ports).length = ips.length * ports.length := by
  induction ips with
  | nil => simp [host_targets]
  | cons ip rest ih =>
    simp only [host_targets, List.flatMap_cons] at *
    simp [ih, List.length_append, Nat.succ_mul, Nat.add_comm]

theorem resolved_targets_length (dns : String → Option (List String))
    (spec : List (String × List Val)) :
    (resolved_targets dns spec).length
      = (spec.map (fun hp => ((dns hp.1).getD []).length * hp.2.length)).sum := by
  induction spec with
  | nil => rfl
  | cons hp rest ih =>
    simp only [resolved_targets, List.flatMap_cons, List.length_append,
      host_targets_length, List.map_cons, List.sum_cons] at ih ⊢
    rw [ih]

/-- C5: for every valid config mapping (every hostname resolves),
`load_config` returns exactly the ordered product (hostname in config order) ×
(ip in resolution order) × (port in config order); consequently the target
count is the sum over hostnames of #ips × #ports, and a hostname whose port
list is empty contributes no targets. -/
theorem C5_load_config_product (dns : String → Option (List String))
    (spec : List (String × List Val))
    (h : ∀ hp ∈ spec, (dns hp.1).isSome) :
    load_config dns spec = some (resolved_targets dns spec) ∧
    (resolved_targets dns spec).length
      = (spec.map (fun hp => ((dns hp.1).getD []).length * hp.2.length)).sum ∧
    ∀ (hostname : String) (ips : List String), host_targets hostname ips [] = [] := by
  refine ⟨by simpa [load_config] using load_config_go_eq_of_resolvable dns spec [] h,
          resolved_targets_length dns spec, ?_⟩
  intro hostname ips
  simp [host_targets]

/-- Concrete instance of C5, the spec's worked example: `example.com`
resolving to one address with two configured ports yields exactly the two
expected targets (1 × 2). -/
theorem C5_load_config_product_witness :
    load_config demoDns [("example.com", [Val.s "80", Val.s "443"])]
      = some [[Val.s "example.com", Val.s "93.184.216.34", Val.s "80"],
              [Val.s "example.com", Val.s "93.184.216.34", Val.s "443"]] ∧
    (resolved_targets demoDns [("example.com", [Val.s "80", Val.s "443"])]).length
      = 2 := by
  have h := C5_load_config_product demoDns
    [("example.com", [Val.s "80", Val.s "443"])] (by decide)
  exact ⟨by rw [h.1]; decide, by rw [h.2.1]; decide⟩

/-- C7: if any configured hostname fails to resolve, `load_config` raises
rather than returning any partial target list, so `parallel_scan` raises as
well and `save_scan_result` leaves its entire state — the persisted snapshot
and the gauge registry — exactly as it was: the cycle is aborted before any
probing or persisting takes place. -/
theorem C7_resolution_failure_aborts (dns : String → Option (List String))
    (connect : Val → Val → Nat → Nat) (config : List (String × List Val))
    (h : ∃ hp ∈ config, dns hp.1 = none) :
    load_config dns config = none ∧
    parallel_scan dns connect config = none ∧
    ∀ st : AppState, save_scan_result dns connect config st = st := by
  have hlc : load_config dns config = none := load_config_go_eq_none dns config [] h
  refine ⟨hlc, ?_, ?_⟩
  · simp [parallel_scan, hlc]
  · intro st
    simp [save_scan_result, parallel_scan, hlc]

/-- Concrete instance of C7: a config naming an unresolvable hostname leaves
a concrete prior state (persisted demo snapshot, one gauge series) fully
unchanged. -/
theorem C7_resolution_failure_aborts_witness :
    save_scan_result demoDns demoConnect [("missing.example", [Val.s "80"])]
      ⟨some demoSnapshot, [((Val.s "example.com", Val.s "93.184.216.34", Val.s "80"), 1)]⟩
      = ⟨some demoSnapshot, [((Val.s "example.com", Val.s "93.184.216.34", Val.s "80"), 1)]⟩ :=
  (C7_resolution_failure_aborts demoDns demoConnect [("missing.example", [Val.s "80"])]
    ⟨("missing.example", [Val.s "80"]), by decide, by decide⟩).2.2 _

/-! The fan-out, lines 60 to 70 -/

theorem foldl_run_thread (connect : Val → Val → Nat → Nat)
    (l : List (List Val)) (h : ∀ t ∈ l, ∃ a b c, t = [a, b, c]) :
    ∀ r : List (List Val),
      l.foldl (run_thread connect) r = r ++ l.map (probe_row connect) := by
  induction l with
  | nil => simp
  | cons t rest ih =>
    intro r
    obtain ⟨a, b, c, rfl⟩ := h t (List.mem_cons_self _ _)
    have hrun : run_thread connect r [a, b, c]
        = r ++ [probe_row connect [a, b, c]] := by
      simp [run_thread, port_scan_eq, probe_row, scan_status]
    rw [List.foldl_cons, hrun, ih (fun x hx => h x (List.mem_cons_of_mem _ hx)),
      List.map_cons, List.append_assoc, List.singleton_append]

theorem resolved_targets_shape (dns : String → Option (List String))
    (spec : List (String × List Val)) :
    ∀ t ∈ resolved_targets dns spec, ∃ a b c, t = [a, b, c] := by
  intro t ht
  simp only [resolved_targets, List.mem_flatMap, host_targets, List.mem_map] at ht
  obtain ⟨hp, _, ip, _, port, _, rfl⟩ := ht
  exact ⟨_, _, _, rfl⟩

/-- C1: whenever resolution succeeds (yielding targets `spec`),
`parallel_scan` never fails and returns exactly one ProbeResult row per input
target — the list of classified rows in target order, of the same length as
`spec` — regardless of how many targets are reachable under the connect
oracle. -/
theorem C1_parallel_scan_total (dns : String → Option (List String))
    (connect : Val → Val → Nat → Nat) (config : List (String × List Val))
    (spec : List (List Val)) (h : load_config dns config = some spec) :
    parallel_scan dns connect config = some (spec.map (probe_row connect)) ∧
    (spec.map (probe_row connect)).length = spec.length := by
  obtain ⟨-, rfl⟩ := load_config_some_inv dns config spec h
  refine ⟨?_, List.length_map _ _⟩
  rw [parallel_scan, h, Option.map_some']
  rw [foldl_run_thread connect _ (resolved_targets_shape dns config) []]
  simp

/-! Aggregation, lines 88 to 99 -/

theorem aggregate_step_eq (pj : Snapshot) (hostname ip port status : Val) :
    aggregate_step pj [hostname, ip, port, status]
      = some (spec_insert hostname ip port (statusStr status) pj) := by
  cases hh : dictGet hostname pj with
  | none =>
    simp [aggregate_step, spec_insert, statusStr, hh, dictGet_dictSet_self,
      dictSet_dictSet, dictGet, dictSet]
  | some hm =>
    cases hi : dictGet ip hm with
    | none =>
      simp [aggregate_step, spec_insert, statusStr, hh, hi, dictGet_dictSet_self,
        dictSet_dictSet, dictGet, dictSet]
    | some im =>
      simp [aggregate_step, spec_insert, statusStr, hh, hi]

theorem aggregate_eq_spec (rows : List (Val × Val × Val × Val)) :
    aggregate (rows.map (fun r => [r.1, r.2.1, r.2.2.1, r.2.2.2]))
      = some (aggregateSpec rows) := by
  suffices h : ∀ pj : Snapshot,
      (rows.map (fun r => [r.1, r.2.1, r.2.2.1, r.2.2.2])).foldlM aggregate_step pj
        = some (rows.foldl
            (fun s r => spec_insert r.1 r.2.1 r.2.2.1 (statusStr r.2.2.2) s) pj) from
    h []
  induction rows with
  | nil => intro pj; rfl
  | cons r rest ih =>
    intro pj
    rw [List.map_cons, List.foldlM_cons, aggregate_step_eq]
    simpa using ih (spec_insert r.1 r.2.1 r.2.2.1 (statusStr r.2.2.2) pj)

theorem lookup3_spec_insert (s : Snapshot) (hostname ip port : Val)
    (status : String) :
    lookup3 (spec_insert hostname ip port status s) hostname ip port
      = some status := by
  simp [lookup3, spec_insert, dictGet_dictSet_self]

/-- C4: the aggregation loop of `save_scan_result` is a deterministic pure
function of the probe rows, equal to the spec's left-to-right fold
(`aggregateSpec`) that inserts each (hostname, ip, port) → status into a
fresh nested mapping; on a duplicated triple the later row wins — after
folding, the triple's entry holds the status of its last occurrence — and no
duplicate-detection error is raised (the fold always returns `some`). -/
theorem C4_aggregate_fold_lww :
    (∀ rows : List (Val × Val × Val × Val),
      aggregate (rows.map (fun r => [r.1, r.2.1, r.2.2.1, r.2.2.2]))
        = some (aggregateSpec rows)) ∧
    (∀ (rows : List (Val × Val × Val × Val)) (hostname ip port status : Val),
      lookup3 (aggregateSpec (rows ++ [(hostname, ip, port, status)]))
          hostname ip port
        = some (statusStr status)) ∧
    (∀ (rows : List (Val × Val × Val × Val)) (hostname ip port status : Val),
      (aggregate ((rows ++ [(hostname, ip, port, status)]).map
          (fun r => [r.1, r.2.1, r.2.2.1, r.2.2.2]))).map
          (fun s => lookup3 s hostname ip port)
        = some (some (statusStr status))) := by
  have hlast : ∀ (rows : List (Val × Val × Val × Val)) (hostname ip port status : Val),
      lookup3 (aggregateSpec (rows ++ [(hostname, ip, port, status)]))
        hostname ip port = some (statusStr status) := by
    intro rows hostname ip port status
    rw [aggregateSpec, List.foldl_append]
    exact lookup3_spec_insert ..
  refine ⟨aggregate_eq_spec, hlast, ?_⟩
  intro rows hostname ip port status
  rw [aggregate_eq_spec, Option.map_some', hlast]

/-- Concrete instance of C1, the spec's worked example: two targets
(ports 80 and 443 of `example.com`), one reachable and one not, still yield
exactly two results. -/
theorem C1_parallel_scan_total_witness :
    parallel_scan demoDns demoConnect [("example.com", [Val.s "80", Val.s "443"])]
      = some
        [[Val.s "example.com", Val.s "93.184.216.34", Val.s "80", Val.n 1],
         [Val.s "example.com", Val.s "93.184.216.34", Val.s "443", Val.n 0]] := by
  have h := C1_parallel_scan_total demoDns demoConnect
    [("example.com", [Val.s "80", Val.s "443"])]
    [[Val.s "example.com", Val.s "93.184.216.34", Val.s "80"],
     [Val.s "example.com", Val.s "93.184.216.34", Val.s "443"]] (by decide)
  rw [h.1]; decide

/-! Metric projection, lines 105 to 117 -/

theorem mem_port_block_keys {hostname ip : Val} {ports : Dict Val String}
    {k : Val × Val × Val} (hk : k ∈ dictKeys (port_block hostname ip ports)) :
    k.1 = hostname ∧ k.2.1 = ip ∧ k.2.2 ∈ dictKeys ports := by
  simp only [port_block, dictKeys, List.map_map, List.mem_map,
    Function.comp] at hk
  obtain ⟨p, hp, rfl⟩ := hk
  exact ⟨rfl, rfl, List.mem_map.mpr ⟨p, hp, rfl⟩⟩

theorem mem_ip_block_keys {hostname : Val} {ips : Dict Val (Dict Val String)}
    {k : Val × Val × Val} (hk : k ∈ dictKeys (ip_block hostname ips)) :
    k.1 = hostname ∧ k.2.1 ∈ dictKeys ips := by
  simp only [ip_block, dictKeys, List.map_flatMap, List.mem_flatMap] at hk
  obtain ⟨i, hi, hki⟩ := hk
  obtain ⟨h1, h2, -⟩ := mem_port_block_keys hki
  exact ⟨h1, h2 ▸ List.mem_map.mpr ⟨i, hi, rfl⟩⟩

theorem mem_snapshot_entries_keys {s : Snapshot} {k : Val × Val × Val}
    (hk : k ∈ dictKeys (snapshot_entries s)) : k.1 ∈ dictKeys s := by
  simp only [snapshot_entries, dictKeys, List.map_flatMap, List.mem_flatMap] at hk
  obtain ⟨h, hh, hkh⟩ := hk
  exact (mem_ip_block_keys hkh).1 ▸ List.mem_map.mpr ⟨h, hh, rfl⟩

theorem set_ports_eq_append (hostname ip : Val) (ports : Dict Val String)
    (g : GaugeSet) (hnd : (dictKeys ports).Nodup)
    (hdisj : ∀ p ∈ dictKeys ports, (hostname, ip, p) ∉ dictKeys g) :
    set_ports hostname ip ports g = g ++ port_block hostname ip ports := by
  induction ports generalizing g with
  | nil => simp [set_ports, port_block]
  | cons p rest ih =>
    obtain ⟨pk, pv⟩ := p
    simp only [dictKeys, List.map_cons, List.nodup_cons] at hnd
    have hset : dictSet (hostname, ip, pk) (gaugeVal pv) g
        = g ++ [((hostname, ip, pk), gaugeVal pv)] :=
      dictSet_of_not_mem _ _ _ (hdisj pk (by simp [dictKeys]))
    have hstep : set_ports hostname ip ((pk, pv) :: rest) g
        = set_ports hostname ip rest (dictSet (hostname, ip, pk) (gaugeVal pv) g) := rfl
    rw [hstep, hset, ih _ hnd.2 ?_]
    · simp [port_block, List.append_assoc]
    · intro q hq
      have hqneq : q ≠ pk := fun hqe => hnd.1 (hqe ▸ hq)
      have hqg : (hostname, ip, q) ∉ dictKeys g :=
        hdisj q (by simp [dictKeys]; exact Or.inr (by simpa [dictKeys] using hq))
      simp only [dictKeys, List.map_append, List.mem_append, List.map_cons,
        List.map_nil, List.mem_singleton]
      rintro (hmem | hmem)
      · exact hqg (by simpa [dictKeys] using hmem)
      · exact hqneq (by simpa using congrArg (fun t => t.2.2) hmem)

theorem set_ips_eq_append (hostname : Val) (ips : Dict Val (Dict Val String))
    (g : GaugeSet) (hnd : (dictKeys ips).Nodup)
    (hnd2 : ∀ i ∈ ips, (dictKeys i.2).Nodup)
    (hdisj : ∀ i ∈ ips, ∀ p ∈ dictKeys i.2, (hostname, i.1, p) ∉ dictKeys g) :
    set_ips hostname ips g = g ++ ip_block hostname ips := by
  induction ips generalizing g with
  | nil => simp [set_ips, ip_block]
  | cons i rest ih =>
    obtain ⟨ik, ports⟩ := i
    simp only [dictKeys, List.map_cons, List.nodup_cons] at hnd
    have hstep : set_ips hostname ((ik, ports) :: rest) g
        = set_ips hostname rest (set_ports hostname ik ports g) := rfl
    rw [hstep,
      set_ports_eq_append hostname ik ports g (hnd2 _ (List.mem_cons_self _ _))
        (fun p hp => hdisj _ (List.mem_cons_self _ _) p hp),
      ih _ hnd.2 (fun i hi => hnd2 i (List.mem_cons_of_mem _ hi)) ?_]
    · simp [ip_block, List.append_assoc]
    · intro i hi p hp
      have hik : i.1 ≠ ik := fun he => hnd.1 (he ▸ List.mem_map.mpr ⟨i, hi, rfl⟩)
      simp only [dictKeys, List.map_append, List.mem_append]
      rintro (hmem | hmem)
      · exact hdisj i (List.mem_cons_of_mem _ hi) p hp (by simpa [dictKeys] using hmem)
      · exact hik (mem_port_block_keys (by simpa [dictKeys] using hmem)).2.1

theorem update_metrics_fold_append (s : Snapshot) (g : GaugeSet)
    (hwf : SnapshotWF s)
    (hdisj : ∀ h ∈ s, ∀ i ∈ h.2, ∀ p ∈ dictKeys i.2, (h.1, i.1, p) ∉ dictKeys g) :
    s.foldl (fun g h => set_ips h.1 h.2 g) g = g ++ snapshot_entries s := by
  induction s generalizing g with
  | nil => simp [snapshot_entries]
  | cons hd rest ih =>
    obtain ⟨hk, hm⟩ := hd
    obtain ⟨hnd, hlevels⟩ := hwf
    simp only [dictKeys, List.map_cons, List.nodup_cons] at hnd
    rw [List.foldl_cons]
    have hhd := hlevels _ (List.mem_cons_self _ _)
    rw [show set_ips (hk, hm).1 (hk, hm).2 g = set_ips hk hm g from rfl,
      set_ips_eq_append hk hm g hhd.1 hhd.2
        (fun i hi p hp => hdisj _ (List.mem_cons_self _ _) i hi p hp)]
    rw [ih _ ⟨hnd.2, fun h hh => hlevels h (List.mem_cons_of_mem _ hh)⟩ ?_]
    · simp [snapshot_entries, List.append_assoc]
    · intro h hh i hi p hp
      have hne : h.1 ≠ hk := fun he => hnd.1 (he ▸ List.mem_map.mpr ⟨h, hh, rfl⟩)
      simp only [dictKeys, List.map_append, List.mem_append]
      rintro (hmem | hmem)
      · exact hdisj h (List.mem_cons_of_mem _ hh) i hi p hp
          (by simpa [dictKeys] using hmem)
      · exact hne (mem_ip_block_keys (by simpa [dictKeys] using hmem)).1

theorem update_metrics_eq_entries (s : Snapshot) (hwf : SnapshotWF s) :
    update_prometheus_metrics s = snapshot_entries s := by
  simpa [update_prometheus_metrics] using
    update_metrics_fold_append s [] hwf (by simp [dictKeys])

theorem dictGet_port_block_ne (hostname ip h' ip' p' : Val)
    (ports : Dict Val String) (hne : h' ≠ hostname ∨ ip' ≠ ip) :
    dictGet (h', ip', p') (port_block hostname ip ports) = none := by
  refine dictGet_eq_none_of_not_mem _ _ (fun hk => ?_)
  obtain ⟨h1, h2, -⟩ := mem_port_block_keys hk
  rcases hne with hne | hne
  · exact hne h1
  · exact hne h2

theorem dictGet_port_block_self (hostname ip p : Val) (ports : Dict Val String) :
    dictGet (hostname, ip, p) (port_block hostname ip ports)
      = (dictGet p ports).map gaugeVal := by
  induction ports with
  | nil => simp [port_block, dictGet]
  | cons q rest ih =>
    obtain ⟨qk, qv⟩ := q
    by_cases h : qk = p
    · subst h; simp [port_block, dictGet]
    · simp [port_block, dictGet, h, Prod.ext_iff] at ih ⊢
      exact ih

theorem dictGet_ip_block_not_mem (hostname ip p : Val)
    (ips : Dict Val (Dict Val String)) (hip : ip ∉ dictKeys ips) :
    dictGet (hostname, ip, p) (ip_block hostname ips) = none := by
  refine dictGet_eq_none_of_not_mem _ _ (fun hk => ?_)
  exact hip (mem_ip_block_keys hk).2

theorem dictGet_ip_block_ne (hostname h' ip' p' : Val)
    (ips : Dict Val (Dict Val String)) (hne : h' ≠ hostname) :
    dictGet (h', ip', p') (ip_block hostname ips) = none := by
  refine dictGet_eq_none_of_not_mem _ _ (fun hk => ?_)
  exact hne (mem_ip_block_keys hk).1

theorem dictGet_ip_block_self (hostname ip p : Val)
    (ips : Dict Val (Dict Val String)) (hnd : (dictKeys ips).Nodup) :
    dictGet (hostname, ip, p) (ip_block hostname ips)
      = ((dictGet ip ips).bind (fun ports => dictGet p ports)).map gaugeVal := by
  induction ips with
  | nil => simp [ip_block, dictGet]
  | cons i rest ih =>
    obtain ⟨ik, ports⟩ := i
    simp only [dictKeys, List.map_cons, List.nodup_cons] at hnd
    have hblock : ip_block hostname ((ik, ports) :: rest)
        = port_block hostname ik ports ++ ip_block hostname rest := by
      simp [ip_block]
    rw [hblock, dictGet_append]
    by_cases hik : ik = ip
    · subst hik
      rw [dictGet_port_block_self]
      cases hq : dictGet p ports with
      | none =>
        simp only [Option.map_none']
        rw [dictGet_ip_block_not_mem _ _ _ _ (by simpa [dictKeys] using hnd.1)]
        simp [dictGet, hq]
      | some v =>
        simp [dictGet, hq]
    · rw [dictGet_port_block_ne _ _ _ _ _ _ (Or.inr (fun he => hik he.symm))]
      rw [ih hnd.2]
      simp [dictGet, hik]

theorem dictGet_snapshot_entries_not_mem (h ip p : Val) (s : Snapshot)
    (hh : h ∉ dictKeys s) :
    dictGet (h, ip, p) (snapshot_entries s) = none := by
  refine dictGet_eq_none_of_not_mem _ _ (fun hk => ?_)
  exact hh (mem_snapshot_entries_keys hk)

theorem dictGet_snapshot_entries (s : Snapshot) (hwf : SnapshotWF s)
    (h ip p : Val) :
    dictGet (h, ip, p) (snapshot_entries s)
      = (lookup3 s h ip p).map gaugeVal := by
  induction s with
  | nil => simp [snapshot_entries, lookup3, dictGet]
  | cons hd rest ih =>
    obtain ⟨hk, hm⟩ := hd
    obtain ⟨hnd, hlevels⟩ := hwf
    simp only [dictKeys, List.map_cons, List.nodup_cons] at hnd
    have hblock : snapshot_entries ((hk, hm) :: rest)
        = ip_block hk hm ++ snapshot_entries rest := by
      simp [snapshot_entries]
    rw [hblock, dictGet_append]
    by_cases hhk : hk = h
    · subst hhk
      rw [dictGet_ip_block_self _ _ _ _ (hlevels _ (List.mem_cons_self _ _)).1]
      cases hq : (dictGet ip hm).bind (fun ports => dictGet p ports) with
      | none =>
        simp only [Option.map_none']
        rw [dictGet_snapshot_entries_not_mem _ _ _ _ (by simpa [dictKeys] using hnd.1)]
        simp [lookup3, dictGet, hq]
      | some v =>
        simp [lookup3, dictGet, hq]
    · rw [dictGet_ip_block_ne _ _ _ _ _ (fun he => hhk he.symm)]
      rw [ih ⟨hnd.2, fun x hx => hlevels x (List.mem_cons_of_mem _ hx)⟩]
      simp [lookup3, dictGet, hhk]

theorem port_block_keys_nodup (hostname ip : Val) (ports : Dict Val String)
    (hnd : (dictKeys ports).Nodup) :
    (dictKeys (port_block hostname ip ports)).Nodup := by
  have hkeys : dictKeys (port_block hostname ip ports)
      = (dictKeys ports).map (fun k => (hostname, ip, k)) := by
    simp [port_block, dictKeys, List.map_map, Function.comp]
  rw [hkeys]
  exact hnd.map (fun a b hab => by simpa using hab)

theorem ip_block_keys_nodup (hostname : Val) (ips : Dict Val (Dict Val String))
    (hnd : (dictKeys ips).Nodup)
    (hnd2 : ∀ i ∈ ips, (dictKeys i.2).Nodup) :
    (dictKeys (ip_block hostname ips)).Nodup := by
  induction ips with
  | nil => simp [ip_block, dictKeys]
  | cons i rest ih =>
    obtain ⟨ik, ports⟩ := i
    simp only [dictKeys, List.map_cons, List.nodup_cons] at hnd
    have hblock : ip_block hostname ((ik, ports) :: rest)
        = port_block hostname ik ports ++ ip_block hostname rest := by
      simp [ip_block]
    rw [hblock, dictKeys, List.map_append]
    refine List.Nodup.append
      (port_block_keys_nodup _ _ _ (hnd2 _ (List.mem_cons_self _ _)))
      (ih hnd.2 (fun x hx => hnd2 x (List.mem_cons_of_mem _ hx)))
      (fun k hk1 hk2 => ?_)
    have h1 := (mem_port_block_keys (by simpa [dictKeys] using hk1)).2.1
    have h2 := (mem_ip_block_keys (k := k) (by simpa [dictKeys] using hk2)).2
    exact hnd.1 (by rw [← h1] at *; simpa [dictKeys] using h2)

theorem snapshot_entries_keys_nodup (s : Snapshot) (hwf : SnapshotWF s) :
    (dictKeys (snapshot_entries s)).Nodup := by
  induction s with
  | nil => simp [snapshot_entries, dictKeys]
  | cons hd rest ih =>
    obtain ⟨hk, hm⟩ := hd
    obtain ⟨hnd, hlevels⟩ := hwf
    simp only [dictKeys, List.map_cons, List.nodup_cons] at hnd
    have hblock : snapshot_entries ((hk, hm) :: rest)
        = ip_block hk hm ++ snapshot_entries rest := by
      simp [snapshot_entries]
    rw [hblock, dictKeys, List.map_append]
    refine List.Nodup.append
      (ip_block_keys_nodup _ _ (hlevels _ (List.mem_cons_self _ _)).1
        (hlevels _ (List.mem_cons_self _ _)).2)
      (ih ⟨hnd.2, fun x hx => hlevels x (List.mem_cons_of_mem _ hx)⟩)
      (fun k hk1 hk2 => ?_)
    have h1 := (mem_ip_block_keys (k := k) (by simpa [dictKeys] using hk1)).1
    have h2 := mem_snapshot_entries_keys (k := k) (by simpa [dictKeys] using hk2)
    exact hnd.1 (by rw [← h1] at *; simpa [dictKeys] using h2)

/-- C3: after `update_prometheus_metrics` runs on a snapshot, the gauge
registry holds, for every (hostname, ip, port), exactly the value determined
by the snapshot — `1` when the stored status is `"open"`, `0` for any other
status, and no series at all (`none`) for triples outside the snapshot's
keys; the registry's label triples are moreover pairwise distinct, so each
snapshot entry has exactly one series and nothing from any previous publish
survives the `clear()`. -/
theorem C3_update_metrics_exact (s : Snapshot) (hwf : SnapshotWF s) :
    (∀ hostname ip port : Val,
      dictGet (hostname, ip, port) (update_prometheus_metrics s)
        = (lookup3 s hostname ip port).map gaugeVal) ∧
    (dictKeys (update_prometheus_metrics s)).Nodup := by
  rw [update_metrics_eq_entries s hwf]
  exact ⟨fun hostname ip port => dictGet_snapshot_entries s hwf hostname ip port,
         snapshot_entries_keys_nodup s hwf⟩

/-- Concrete instance of C3 on the spec's worked snapshot: the series for
(example.com, 93.184.216.34, 80) is exactly the snapshot's "open" → 1, and a
triple absent from the snapshot has no series. -/
theorem C3_update_metrics_exact_witness :
    SnapshotWF demoSnapshot ∧
    dictGet (Val.s "example.com", Val.s "93.184.216.34", Val.s "80")
        (update_prometheus_metrics demoSnapshot)
      = (lookup3 demoSnapshot (Val.s "example.com") (Val.s "93.184.216.34")
          (Val.s "80")).map gaugeVal ∧
    dictGet (Val.s "gone.example", Val.s "10.0.0.1", Val.s "80")
        (update_prometheus_metrics demoSnapshot)
      = (lookup3 demoSnapshot (Val.s "gone.example") (Val.s "10.0.0.1")
          (Val.s "80")).map gaugeVal :=
  ⟨by decide,
   (C3_update_metrics_exact demoSnapshot (by decide)).1 _ _ _,
   (C3_update_metrics_exact demoSnapshot (by decide)).1 _ _ _⟩

end PortScanner
